import Mathlib

/-!
Verification of the qstack item storage engine against its specification.

The development shallowly embeds the item model and the command layer
(`new`, `update`, `attach add`, `attach remove`) of the qstack repository.
Raw text is modelled as a list of lines, each line a list of characters
(`Str`), so that the frontmatter serializer and parser are executable
functions over plain lists.  Filesystem paths are lists of segments and
filesystem effects (saves, renames, moves, copies, deletions) are recorded
explicitly in an effect trace, so that frame conditions ("no write
happens") become statements about the trace.

Functions present in the repository sources (`commands/update.rs`,
`commands/attach.rs`, `commands/new.rs`, `ui.rs`) are translated directly.
The item/storage module itself is absent from the sources; its functions
(`parse`, `serialize`, `filename`, `derive_category`, `process_attachment`,
`is_url`, ...) are modelled from the specification and are marked as such
in their doc comments.
-/

namespace QStack

/-- Characters of one line of text. -/
abbrev Str := List Char

/-- Whitespace trimming, as Rust's `str::trim`. -/
def trim (s : Str) : Str :=
  ((s.dropWhile Char.isWhitespace).reverse.dropWhile Char.isWhitespace).reverse

/-- Modelled from the spec: `normalize_identifier` lives in the missing item
module.  Spec §3: labels/categories are "trimmed, lowercase, internal spaces
replaced with hyphens". -/
def normalize_identifier (s : Str) : Str :=
  (trim s).map fun c => if c = ' ' then '-' else c.toLower

/-- Item status, spec §3: `status ∈ {Open, Closed, Template}`. -/
inductive Status where
  | Open
  | Closed
  | Template
deriving DecidableEq, Repr

/-- Serialized form of a status value. -/
def statusStr : Status → Str
  | .Open => "open".data
  | .Closed => "closed".data
  | .Template => "template".data

/-- Decodes a status value; anything else is a parse failure. -/
def parseStatus (s : Str) : Option Status :=
  if s = "open".data then some .Open
  else if s = "closed".data then some .Closed
  else if s = "template".data then some .Template
  else none

/-- Structured metadata header of an item, spec §3. -/
structure Frontmatter where
  id : Str
  title : Str
  author : Str
  created_at : Str
  status : Status
  labels : List Str
  attachments : List Str
deriving DecidableEq, Repr

/-- An item: frontmatter plus free-text body (spec §3).  The optional path is
tracked separately by the command models. -/
structure Item where
  frontmatter : Frontmatter
  body : List Str
deriving DecidableEq, Repr

/-- Header line of the form `key: value`. -/
def keyLine (k v : Str) : Str := k ++ ": ".data ++ v

/-- List entry line of the form `- value`. -/
def dashLine (v : Str) : Str := "- ".data ++ v

/-- Modelled from the spec: `serialize` lives in the missing item module.
Spec §6: a structured metadata header delimited by a marker pair with required
fields `id`, `title`, `author`, `created_at`, `status`, `labels`,
`attachments`, followed by the free-text body. -/
def serializeItem (it : Item) : List Str :=
  "---".data ::
  keyLine "id".data it.frontmatter.id ::
  keyLine "title".data it.frontmatter.title ::
  keyLine "author".data it.frontmatter.author ::
  keyLine "created_at".data it.frontmatter.created_at ::
  keyLine "status".data (statusStr it.frontmatter.status) ::
  "labels:".data ::
  (it.frontmatter.labels.map dashLine ++
    "attachments:".data ::
      (it.frontmatter.attachments.map dashLine ++
        "---".data :: it.body))

/-- Reads a `key: value` header line. -/
def parseKeyLine (k line : Str) : Option Str :=
  let pre := k ++ ": ".data
  if pre.isPrefixOf line then some (line.drop pre.length) else none

/-- Reads the leading run of `- value` lines, returning the values and the
remaining lines. -/
def parseDashList : List Str → List Str × List Str
  | [] => ([], [])
  | line :: rest =>
    if ("- ".data).isPrefixOf line then
      let p := parseDashList rest
      (line.drop 2 :: p.1, p.2)
    else ([], line :: rest)

/-- Reads the header lines after the opening marker. -/
def parseHeader (ls : List Str) : Option Item :=
  match ls with
  | l1 :: l2 :: l3 :: l4 :: l5 :: l6 :: rest =>
    (parseKeyLine "id".data l1).bind fun id =>
    (parseKeyLine "title".data l2).bind fun title =>
    (parseKeyLine "author".data l3).bind fun author =>
    (parseKeyLine "created_at".data l4).bind fun created =>
    ((parseKeyLine "status".data l5).bind parseStatus).bind fun st =>
    if l6 = "labels:".data then
      let p1 := parseDashList rest
      match p1.2 with
      | l7 :: rest2 =>
        if l7 = "attachments:".data then
          let p2 := parseDashList rest2
          match p2.2 with
          | l8 :: body =>
            if l8 = "---".data then
              some ⟨⟨id, title, author, created, st, p1.1, p2.1⟩, body⟩
            else none
          | [] => none
        else none
      | [] => none
    else none
  | _ => none

/-- Modelled from the spec: `parse` lives in the missing item module.
Spec §4.2: `parse(raw_text) -> Item` fails when the structured header is
missing, malformed, or missing required fields. -/
def parseItem (text : List Str) : Option Item :=
  match text with
  | first :: rest => if first = "---".data then parseHeader rest else none
  | [] => none

/-- Filesystem path, as a list of segments. -/
abbrev Path := List Str

/-- Configuration value feeding the path roots (spec §6 directory layout).
Only the stack root is needed by the claims under study. -/
structure Config where
  stackRoot : Path
deriving DecidableEq, Repr

/-- Remainder of a path after the given root, when the path lies under the
root. -/
def underRoot : Path → Path → Option Path
  | [], p => some p
  | _, [] => none
  | a :: as, b :: bs => if a = b then underRoot as bs else none

/-- Modelled from the spec: `derive_category` lives in the missing storage
module.  Spec §4.4: returns `None` if the file sits directly under the root,
otherwise the first directory segment below the root; deeper nesting is
ignored. -/
def derive_category (cfg : Config) (p : Path) : Option Str :=
  match underRoot cfg.stackRoot p with
  | some (c :: _ :: _) => some c
  | _ => none

/-- Modelled from the spec: `resolve_target_dir` (§4.4), inverse of category
derivation. -/
def resolve_target_dir (cfg : Config) (category : Option Str) : Path :=
  match category with
  | some c => cfg.stackRoot ++ [c]
  | none => cfg.stackRoot

/-- Last path segment: the file's name. -/
def fileSeg (p : Path) : Str := p.getLastD []

/-- Modelled from the spec: `move_to_category` (§4.5) moves the file to the
resolved directory for the new category, preserving the filename.  Attachment
directory relocation and its warnings are not modelled. -/
def move_to_category (cfg : Config) (p : Path) (category : Option Str) : Path :=
  resolve_target_dir cfg category ++ [fileSeg p]

/-- Modelled from the spec: `rename_item` (§4.5) renames within the same
directory. -/
def rename_item (p : Path) (newName : Str) : Path :=
  p.dropLast ++ [newName]

/-- Collapses runs of repeated hyphens to a single hyphen (spec §4.3). -/
def collapseHyphens : Str → Str
  | [] => []
  | a :: rest =>
    let r := collapseHyphens rest
    if a = '-' then
      match r with
      | '-' :: _ => r
      | _ => '-' :: r
    else a :: r

/-- Strips leading and trailing hyphens (spec §4.3). -/
def trimHyphens (s : Str) : Str :=
  ((s.dropWhile (· = '-')).reverse.dropWhile (· = '-')).reverse

/-- Maximum slug length (spec §4.3: truncation to a bounded maximum). -/
def slugMaxLen : Nat := 64

/-- Modelled from the spec: the slug deriver lives in the missing item module.
Spec §4.3: lowercase, replace whitespace/invalid-filename characters with
hyphens, collapse repeated hyphens, trim leading/trailing hyphens, truncate. -/
def slug (title : Str) : Str :=
  (trimHyphens (collapseHyphens
    (title.map fun c =>
      let lc := c.toLower
      if lc.isAlphanum then lc else '-'))).take slugMaxLen

/-- Modelled from the spec: the filename deriver lives in the missing item
module.  Spec §4.3/§6: `<id>-<slug>.<ext>`; an empty slug yields the id
alone (no trailing separator). -/
def filename (id title : Str) : Str :=
  if slug title = [] then id ++ ".md".data
  else id ++ "-".data ++ slug title ++ ".md".data

/-- Filename of an item, derived from its id and title. -/
def Item.filename (it : Item) : Str :=
  QStack.filename it.frontmatter.id it.frontmatter.title

/-- Filesystem effects performed by a command, in execution order. -/
inductive Effect where
  | save (path : Path) (content : List Str)
  | create (path : Path) (content : List Str)
  | rename (oldPath newPath : Path)
  | move (oldPath newPath : Path)
  | copy (source newName : Str)
  | deleteAtt (name : Str)
deriving DecidableEq, Repr

/-- Replaces the title (`set_title` of the missing item module; the spec fixes
no behaviour beyond storing the new title). -/
def Item.set_title (it : Item) (t : Str) : Item :=
  { it with frontmatter := { it.frontmatter with title := t } }

/-- Modelled from the spec: `add_label` (§4.2) applies creation-time
normalization and refuses duplicates. -/
def Item.add_label (it : Item) (l : Str) : Item :=
  let n := normalize_identifier l
  if n ∈ it.frontmatter.labels then it
  else { it with frontmatter :=
    { it.frontmatter with labels := it.frontmatter.labels ++ [n] } }

/-- Modelled from the spec: `remove_label` (§4.2) removes an already
normalized label. -/
def Item.remove_label (it : Item) (n : Str) : Item :=
  { it with frontmatter :=
    { it.frontmatter with labels := it.frontmatter.labels.filter (· ≠ n) } }

/-- Arguments of the update command (`commands/update.rs`). -/
structure UpdateArgs where
  title : Option Str
  labels : List Str
  remove_labels : List Str
  category : Option Str
  remove_category : Bool
deriving Repr

/-- Result of a successful update invocation. -/
structure UpdateOutcome where
  item : Item
  path : Path
  effects : List Effect
deriving DecidableEq, Repr

/-- Label-addition step of `update.rs` (lines 73-77): `add_label` is called
and the `changed` flag is set for every supplied label. -/
def addLabelStep (acc : Item × Bool) (l : Str) : Item × Bool :=
  (acc.1.add_label l, true)

/-- Label-removal step of `update.rs` (lines 79-86): the label is removed and
the `changed` flag set only when the normalized label is present. -/
def removeLabelStep (acc : Item × Bool) (l : Str) : Item × Bool :=
  let n := normalize_identifier l
  if n ∈ acc.1.frontmatter.labels then (acc.1.remove_label n, true) else acc

/-- Title and label mutation phase of `update.rs` (lines 62-86), returning the
mutated item together with the `changed` flag. -/
def applyUpdates (args : UpdateArgs) (item0 : Item) : Item × Bool :=
  let acc1 :=
    match args.title with
    | some t => if t ≠ item0.frontmatter.title then (item0.set_title t, true) else (item0, false)
    | none => (item0, false)
  let acc2 := args.labels.foldl addLabelStep acc1
  args.remove_labels.foldl removeLabelStep acc2

/-- Error message of the empty-title validation. -/
def msgTitleEmpty : Str := "Title cannot be empty".data

/-- Error message of the empty-label validation. -/
def msgLabelEmpty : Str := "Label cannot be empty".data

/-- Error message of the empty-category validation. -/
def msgCategoryEmpty : Str := "Category cannot be empty".data

/-- Model of `update.rs::execute` (lines 27-136).  Configuration loading and
item resolution are taken as inputs; filesystem writes are recorded in the
effect trace of the outcome.  An error result performs no effect. -/
def updateExec (cfg : Config) (args : UpdateArgs) (path0 : Path) (item0 : Item) :
    Except Str UpdateOutcome :=
  if args.title.any (fun t => (trim t).isEmpty) then .error msgTitleEmpty
  else if args.labels.any (fun l => (trim l).isEmpty) then .error msgLabelEmpty
  else if args.remove_labels.any (fun l => (trim l).isEmpty) then .error msgLabelEmpty
  else if args.category.any (fun c => (trim c).isEmpty) then .error msgCategoryEmpty
  else
    let old_filename := item0.filename
    let acc := applyUpdates args item0
    let item1 := acc.1
    let new_category := args.category.map normalize_identifier
    let current_category := derive_category cfg path0
    let category_changed :=
      if args.remove_category then current_category.isSome
      else
        match new_category with
        | some c => decide (current_category ≠ some c)
        | none => false
    let changed := acc.2 || category_changed
    if changed then
      let effs1 : List Effect := [.save path0 (serializeItem item1)]
      let new_filename := item1.filename
      let pe :=
        if old_filename ≠ new_filename then
          let p := rename_item path0 new_filename
          (p, effs1 ++ [.rename path0 p])
        else (path0, effs1)
      if category_changed then
        let cat := if args.remove_category then none else new_category
        let path2 := move_to_category cfg pe.1 cat
        .ok ⟨item1, path2, pe.2 ++ [.move pe.1 path2]⟩
      else .ok ⟨item1, pe.1, pe.2⟩
    else .ok ⟨item1, path0, []⟩

/-- Tests whether `pat` occurs as a contiguous subsequence of `s`. -/
def containsSeq (pat : Str) : Str → Bool
  | [] => pat.isEmpty
  | c :: rest => pat.isPrefixOf (c :: rest) || containsSeq pat rest

/-- Modelled from the spec: `is_url` lives in the missing item module.
Spec §3: attachment kinds are distinguished by URL-syntax detection — any
string matching a URL scheme (it contains `://`) is treated as a URL. -/
def is_url (s : Str) : Bool := containsSeq "://".data s

/-- Attachment processing result (spec §4.6). -/
inductive AttachmentResult where
  | UrlAdded (url : Str)
  | FileCopied (original newName : Str)
  | FileNotFound (p : Str)
deriving DecidableEq, Repr

/-- Appends an entry to the item's attachment metadata. -/
def Item.append_attachment (it : Item) (a : Str) : Item :=
  { it with frontmatter :=
    { it.frontmatter with attachments := it.frontmatter.attachments ++ [a] } }

/-- File name of a source path: the part after the last slash. -/
def baseName (s : Str) : Str := (s.reverse.takeWhile (· ≠ '/')).reverse

/-- Modelled from the spec: `process_attachment` (§4.6).  The filesystem is
the list of existing source paths.  URL sources are appended verbatim and
touch no file; a missing local file yields `FileNotFound` and appends
nothing; an existing local file is copied into the attachment directory and
the resulting name appended.  Collision-free renaming inside the attachment
directory is not modelled (no claim depends on it): the copied name is the
source's base name. -/
def process_attachment (fs : List Str) (source : Str) (it : Item) :
    AttachmentResult × Item × List Effect :=
  if is_url source then (.UrlAdded source, it.append_attachment source, [])
  else if source ∈ fs then
    let nn := baseName source
    (.FileCopied source nn, it.append_attachment nn, [.copy source nn])
  else (.FileNotFound source, it, [])

/-- Accumulated result of processing attachment sources: number of added
attachments, updated item, warnings, filesystem effects. -/
structure AddAcc where
  count : Nat
  item : Item
  warnings : List Str
  effects : List Effect
deriving DecidableEq, Repr

/-- Warning printed for a missing attachment source. -/
def msgFileNotFound (p : Str) : Str := "File not found: ".data ++ p

/-- Source-processing loop of `ui.rs::process_and_save_attachments`
(lines 233-247): every source is processed in order; a `FileNotFound` result
is reported as a warning and not counted. -/
def processSources (fs : List Str) : List Str → Item → AddAcc
  | [], it => ⟨0, it, [], []⟩
  | s :: rest, it =>
    let r := process_attachment fs s it
    let acc := processSources fs rest r.2.1
    match r.1 with
    | .UrlAdded _ => ⟨acc.count + 1, acc.item, acc.warnings, r.2.2 ++ acc.effects⟩
    | .FileCopied _ _ => ⟨acc.count + 1, acc.item, acc.warnings, r.2.2 ++ acc.effects⟩
    | .FileNotFound p => ⟨acc.count, acc.item, msgFileNotFound p :: acc.warnings, acc.effects⟩

/-- Model of `ui.rs::process_and_save_attachments` (lines 215-253): processes
every source, then saves the updated item; the overall result is a success
carrying the added count. -/
def process_and_save_attachments (fs : List Str) (it : Item) (path : Path)
    (sources : List Str) : Except Str AddAcc :=
  let acc := processSources fs sources it
  .ok ⟨acc.count, acc.item, acc.warnings,
    acc.effects ++ [.save path (serializeItem acc.item)]⟩

/-- Arguments of the attach add subcommand (`commands/attach.rs`). -/
structure AttachAddArgs where
  sources : List Str
deriving Repr

/-- Error message of the empty-source-list check. -/
def msgNoSources : Str := "No files or URLs specified".data

/-- Error message of the closed-item check (the Rust message also suggests
the reopen command; only its leading sentence is modelled). -/
def msgClosedItem : Str := "Cannot attach to a closed item.".data

/-- Model of `attach.rs::execute_add` (lines 26-52): refuses an empty source
list, then refuses closed items before processing any source, then delegates
to `process_and_save_attachments`.  An error result performs no effect. -/
def execute_add (fs : List Str) (args : AttachAddArgs) (path : Path) (it : Item) :
    Except Str AddAcc :=
  if args.sources.isEmpty then .error msgNoSources
  else if it.frontmatter.status = .Closed then .error msgClosedItem
  else process_and_save_attachments fs it path args.sources

/-- Arguments of the attach remove subcommand (`commands/attach.rs`),
carrying 1-based indices. -/
structure AttachRemoveArgs where
  indices : List Nat
deriving Repr

/-- Error message of the empty-index-list check. -/
def msgNoIndices : Str := "No attachment indices specified".data

/-- Error message of the no-attachments check. -/
def msgNoAttachments : Str := "Item has no attachments".data

/-- Error message of the index-bounds validation (the Rust message also
interpolates the offending index; the interpolation is not modelled). -/
def msgInvalidIndex : Str := "Invalid attachment index".data

/-- Warning printed when deleting an attachment file fails. -/
def msgDeleteFailed (name : Str) : Str := "Failed to delete file ".data ++ name

/-- Removes the entry at 0-based index `i`, returning it and the remaining
list (`Item::remove_attachment` of the missing item module; an out-of-range
index removes nothing). -/
def removeAt : List Str → Nat → Option (Str × List Str)
  | [], _ => none
  | a :: rest, 0 => some (a, rest)
  | a :: rest, i + 1 => (removeAt rest i).map fun p => (p.1, a :: p.2)

/-- Consecutive deduplication, as Rust's `Vec::dedup` (`attach.rs` line 92):
each run of equal adjacent values is collapsed to a single value. -/
def dedupConsec : List Nat → List Nat
  | [] => []
  | a :: rest =>
    match dedupConsec rest with
    | [] => [a]
    | b :: t => if a = b then b :: t else a :: b :: t

/-- Internal processing order of `attach.rs::execute_remove` (lines 88-92):
sort ascending, reverse to descending, drop consecutive duplicates. -/
def processedIndices (indices : List Nat) : List Nat :=
  dedupConsec ((List.insertionSort (· ≤ ·) indices).reverse)

/-- Replaces the attachment list of an item. -/
def Item.set_attachments (it : Item) (atts : List Str) : Item :=
  { it with frontmatter := { it.frontmatter with attachments := atts } }

/-- Accumulated result of the removal loop: final item, number of removed
entries, warnings, filesystem effects. -/
structure RemoveAcc where
  item : Item
  removedCount : Nat
  warnings : List Str
  effects : List Effect
deriving DecidableEq, Repr

/-- Removal loop of `attach.rs::execute_remove` (lines 96-115): for each
1-based index, the metadata entry is removed; a non-URL entry additionally
has its file deletion attempted, a failure being reported only as a warning.
`delOk` tells whether deleting a given file succeeds. -/
def removeLoop (delOk : Str → Bool) : List Nat → Item → RemoveAcc
  | [], it => ⟨it, 0, [], []⟩
  | idx :: rest, it =>
    match removeAt it.frontmatter.attachments (idx - 1) with
    | some p =>
      let it2 := it.set_attachments p.2
      let fx : List Effect := if is_url p.1 then [] else [.deleteAtt p.1]
      let ws : List Str := if is_url p.1 || delOk p.1 then [] else [msgDeleteFailed p.1]
      let acc := removeLoop delOk rest it2
      ⟨acc.item, acc.removedCount + 1, ws ++ acc.warnings, fx ++ acc.effects⟩
    | none => removeLoop delOk rest it

/-- Model of `attach.rs::execute_remove` (lines 55-128): validates every
1-based index against the current bounds before removing anything, then
removes in descending deduplicated order and saves the item.  An error
result performs no effect. -/
def execute_remove (delOk : Str → Bool) (args : AttachRemoveArgs) (path : Path)
    (it : Item) : Except Str RemoveAcc :=
  if args.indices.isEmpty then .error msgNoIndices
  else
    let n := it.frontmatter.attachments.length
    if n = 0 then .error msgNoAttachments
    else if args.indices.any (fun i => i == 0 || decide (n < i)) then .error msgInvalidIndex
    else
      let acc := removeLoop delOk (processedIndices args.indices) it
      .ok ⟨acc.item, acc.removedCount, acc.warnings,
        acc.effects ++ [.save path (serializeItem acc.item)]⟩

/-- Arguments of the new command's direct (non-interactive, non-template)
path (`commands/new.rs`). -/
structure NewArgs where
  title : Str
  labels : List Str
  category : Option Str
deriving Repr

/-- Model of `new.rs::execute` (lines 53-114), direct path: validations, then
normalization, frontmatter construction, and creation of the item file
(`create_item` is modelled from spec §4.5; identity generation, author
resolution, the creation timestamp, and the id-collision retry are not
modelled — id and author are inputs).  An error result performs no effect. -/
def newExec (cfg : Config) (args : NewArgs) (author id created_at : Str) :
    Except Str (Item × Path × List Effect) :=
  if (trim args.title).isEmpty then .error msgTitleEmpty
  else if args.labels.any (fun l => (trim l).isEmpty) then .error msgLabelEmpty
  else if args.category.any (fun c => (trim c).isEmpty) then .error msgCategoryEmpty
  else
    let labels := args.labels.map normalize_identifier
    let category := args.category.map normalize_identifier
    let fm : Frontmatter := ⟨id, args.title, author, created_at, .Open, labels, []⟩
    let item : Item := ⟨fm, []⟩
    let path := resolve_target_dir cfg category ++ [item.filename]
    .ok (item, path, [.create path (serializeItem item)])

/-- Effect trace of an update result; an error result has an empty trace. -/
def updateEffects (r : Except Str UpdateOutcome) : List Effect :=
  match r with
  | .ok o => o.effects
  | .error _ => []

/-- Tests whether an effect writes item content to a file. -/
def isSaveEffect : Effect → Bool
  | .save _ _ => true
  | _ => false

/-- Hypotheses of a content-preserving update invocation: the title is absent
or equal to the current one (and non-empty after trimming when present), no
labels are added, and no remove-label is present in the item after
normalization (each being non-empty after trimming). -/
def NoContentChange (args : UpdateArgs) (item0 : Item) : Prop :=
  (args.title = none ∨ args.title = some item0.frontmatter.title) ∧
  (∀ t, args.title = some t → (trim t).isEmpty = false) ∧
  args.labels = [] ∧
  (∀ l ∈ args.remove_labels,
    (trim l).isEmpty = false ∧ normalize_identifier l ∉ item0.frontmatter.labels)

/-- Example frontmatter used by concrete witnesses. -/
def exFM : Frontmatter :=
  ⟨"260101-AAA".data, "Fix Login Bug".data, "Alice".data,
   "2026-01-01T00:00:00Z".data, .Open,
   ["bug".data], ["log.txt".data, "https://example.com/x".data]⟩

/-- Example item used by concrete witnesses. -/
def exItem : Item := ⟨exFM, ["Body line".data]⟩

/-- Example configuration with a one-segment stack root. -/
def exCfg : Config := ⟨["stack".data]⟩

/-- Example path of `exItem` inside category `bugs`. -/
def exPath : Path := ["stack".data, "bugs".data, exItem.filename]

/-- Update arguments that only remove the category. -/
def c1args : UpdateArgs := ⟨none, [], [], none, true⟩

/-- An item holding three file attachments. -/
def item3 : Item :=
  ⟨⟨"260102-BBB".data, "Three".data, "Alice".data, "2026-01-02T00:00:00Z".data,
    .Open, [], ["a.txt".data, "b.txt".data, "c.txt".data]⟩, []⟩

/-- Path of `item3` at the stack root. -/
def p3 : Path := ["stack".data, item3.filename]

/-- Deletion oracle under which every filesystem deletion succeeds. -/
def delOkAll : Str → Bool := fun _ => true

/-- Deletion oracle under which every filesystem deletion fails. -/
def delFailAll : Str → Bool := fun _ => false

lemma isPrefixOf_self_append (l₁ l₂ : List Char) : l₁.isPrefixOf (l₁ ++ l₂) = true := by
  induction l₁ with
  | nil => simp [List.isPrefixOf]
  | cons a as ih => simp [List.isPrefixOf, ih]

lemma parseKeyLine_keyLine (k v : Str) : parseKeyLine k (keyLine k v) = some v := by
  unfold parseKeyLine keyLine
  simp only [isPrefixOf_self_append, if_true, List.drop_left]

lemma parseStatus_statusStr (st : Status) : parseStatus (statusStr st) = some st := by
  cases st <;> rfl

lemma parseDashList_map_append (vs : List Str) (rest : List Str)
    (h : ∀ l ls, rest = l :: ls → ("- ".data).isPrefixOf l = false) :
    parseDashList (vs.map dashLine ++ rest) = (vs, rest) := by
  induction vs with
  | nil =>
    cases rest with
    | nil => rfl
    | cons r rs => simp [parseDashList, h r rs rfl]
  | cons v vs ih =>
    have hd : ("- ".data ++ v).drop 2 = v := List.drop_left "- ".data v
    simp [parseDashList, dashLine, isPrefixOf_self_append, ih, hd]

lemma parse_serialize (it : Item) : parseItem (serializeItem it) = some it := by
  have hatt : ∀ l ls,
      ("attachments:".data : Str) :: (it.frontmatter.attachments.map dashLine ++
        "---".data :: it.body) = l :: ls → ("- ".data).isPrefixOf l = false := by
    intro l ls h
    cases h
    decide
  have hdash : ∀ l ls, ("---".data : Str) :: it.body = l :: ls →
      ("- ".data).isPrefixOf l = false := by
    intro l ls h
    cases h
    decide
  simp only [serializeItem, parseItem, if_true, parseHeader, parseKeyLine_keyLine,
    Option.some_bind, parseStatus_statusStr, if_pos rfl,
    parseDashList_map_append _ _ hatt, parseDashList_map_append _ _ hdash]

/-- C2: for every item that `parse` accepts (a well-formed header holding the
required fields), `serialize` is a left inverse of `parse`: parsing the
serialization succeeds and yields an item equal to the original in every
field (id, title, author, created_at, status, labels, attachments, body). -/
theorem c2_serialize_left_inverse (text : List Str) (it : Item)
    (h : parseItem text = some it) :
    parseItem (serializeItem it) = some it :=
  parse_serialize it

/-- Witness for C2: a concrete parsed item round-trips. -/
theorem c2_serialize_left_inverse_witness :
    parseItem (serializeItem exItem) = some exItem :=
  c2_serialize_left_inverse (serializeItem exItem) exItem (by decide)

lemma foldl_removeLabelStep_of_not_mem (ls : List Str) (it : Item) (b : Bool)
    (h : ∀ l ∈ ls, normalize_identifier l ∉ it.frontmatter.labels) :
    ls.foldl removeLabelStep (it, b) = (it, b) := by
  induction ls with
  | nil => rfl
  | cons l ls ih =>
    have h1 : normalize_identifier l ∉ it.frontmatter.labels := h l (List.mem_cons_self l ls)
    have hstep : removeLabelStep (it, b) l = (it, b) := by
      simp [removeLabelStep, h1]
    rw [List.foldl_cons, hstep]
    exact ih fun x hx => h x (List.mem_cons_of_mem _ hx)

lemma applyUpdates_of_no_change (args : UpdateArgs) (item0 : Item)
    (h : NoContentChange args item0) :
    applyUpdates args item0 = (item0, false) := by
  obtain ⟨ht, -, hl, hr⟩ := h
  unfold applyUpdates
  rcases ht with ht | ht <;>
    simp only [ht, hl, List.foldl_nil, ne_eq, not_true_eq_false, if_neg, ite_false,
      reduceIte] <;>
    exact foldl_removeLabelStep_of_not_mem _ _ _ fun l hm => (hr l hm).2

lemma update_validations_pass (args : UpdateArgs) (item0 : Item)
    (httrim : ∀ t, args.title = some t → (trim t).isEmpty = false)
    (hltrim : ∀ l ∈ args.labels, (trim l).isEmpty = false)
    (hrtrim : ∀ l ∈ args.remove_labels, (trim l).isEmpty = false)
    (hctrim : ∀ c, args.category = some c → (trim c).isEmpty = false) :
    args.title.any (fun t => (trim t).isEmpty) = false ∧
    (args.labels.any fun l => (trim l).isEmpty) = false ∧
    (args.remove_labels.any fun l => (trim l).isEmpty) = false ∧
    args.category.any (fun c => (trim c).isEmpty) = false := by
  refine ⟨?_, ?_, ?_, ?_⟩
  · cases harg : args.title with
    | none => rfl
    | some t => simpa [Option.any] using httrim t harg
  · simp only [List.any_eq_false]
    intro l hm
    simp [hltrim l hm]
  · simp only [List.any_eq_false]
    intro l hm
    simp [hrtrim l hm]
  · cases harg : args.category with
    | none => rfl
    | some c => simpa [Option.any] using hctrim c harg

/-- C10: an update invocation with no effective change — the title absent or
equal to the current one, no labels to add, no remove-label present after
normalization, no category given, and remove-category not requested (or the
item already without category) — performs no filesystem modification at all:
the result is a success whose effect trace is empty and whose item and path
are the originals. -/
theorem c10_noop_update_performs_no_effect (cfg : Config) (args : UpdateArgs)
    (path0 : Path) (item0 : Item)
    (hnc : NoContentChange args item0)
    (hc : args.category = none)
    (hrc : args.remove_category = false ∨ derive_category cfg path0 = none) :
    updateExec cfg args path0 item0 = .ok ⟨item0, path0, []⟩ := by
  obtain ⟨ht, httrim, hl, hr⟩ := hnc
  obtain ⟨v1, v2, v3, v4⟩ := update_validations_pass args item0 httrim
    (by simp [hl]) (fun l hm => (hr l hm).1) (by simp [hc])
  unfold updateExec
  rw [v1, v2, v3, v4]
  simp only [Bool.false_eq_true, if_false, ite_false]
  rw [applyUpdates_of_no_change args item0 ⟨ht, httrim, hl, hr⟩]
  rcases hrc with hrc | hrc <;> simp [hrc, hc]

/-- Witness for C10 at a concrete no-op invocation. -/
theorem c10_noop_update_performs_no_effect_witness :
    updateExec exCfg ⟨none, [], [], none, false⟩ ["stack".data, exItem.filename] exItem
      = .ok ⟨exItem, ["stack".data, exItem.filename], []⟩ :=
  c10_noop_update_performs_no_effect exCfg ⟨none, [], [], none, false⟩
    ["stack".data, exItem.filename] exItem
    ⟨Or.inl rfl, by simp, rfl, by simp⟩ rfl (Or.inl rfl)

lemma underRoot_append (r q : Path) : underRoot r (r ++ q) = some q := by
  induction r with
  | nil => simp [underRoot]
  | cons a as ih => simp [underRoot, ih]

lemma fileSeg_append (d : Path) (f : Str) : fileSeg (d ++ [f]) = f := by
  simp [fileSeg]

lemma fileSeg_append_pair (d : Path) (a f : Str) : fileSeg (d ++ [a, f]) = f := by
  have h : d ++ [a, f] = (d ++ [a]) ++ [f] := by simp
  rw [h, fileSeg_append]

lemma derive_category_move_none (cfg : Config) (p : Path) :
    derive_category cfg (move_to_category cfg p none) = none := by
  simp [move_to_category, resolve_target_dir, derive_category, underRoot_append]

lemma derive_category_move_some (cfg : Config) (p : Path) (c : Str) :
    derive_category cfg (move_to_category cfg p (some c)) = some c := by
  simp only [move_to_category, resolve_target_dir, List.append_assoc, List.singleton_append]
  simp [derive_category, underRoot_append]

/-- C1 (counterexample): a concrete update that changes only the category.
The resulting effect trace is a save of the item file followed by the
directory move — the trace contains a metadata write (`Effect.save`), which
refutes the claim's conjunct that "no metadata write to the file occurs"
during a category-only change. -/
theorem c1_category_move_counterexample :
    (updateExec exCfg c1args exPath exItem).toOption =
      some ⟨exItem, ["stack".data, exItem.filename],
        [.save exPath (serializeItem exItem),
         .move exPath ["stack".data, exItem.filename]]⟩ ∧
    (updateEffects (updateExec exCfg c1args exPath exItem)).any isSaveEffect = true := by
  constructor <;> decide

/-- C1 (amended): an update invocation that changes only the item's category
relocates the file with its name and metadata unchanged: the resulting path
is the move target for the new category with the same filename,
`derive_category` on the new path returns the new category (`none` when the
category is removed), and the item value is untouched — however the change is
not purely a file move: the command first re-saves the item file in place
(writing the serialization of the unchanged item), so one metadata write does
occur even though no metadata field changes. -/
theorem c1_category_move_amended :
    (∀ cfg args path0 item0,
      NoContentChange args item0 →
      args.category = none →
      args.remove_category = true →
      (derive_category cfg path0).isSome = true →
      updateExec cfg args path0 item0 =
        .ok ⟨item0, move_to_category cfg path0 none,
          [.save path0 (serializeItem item0),
           .move path0 (move_to_category cfg path0 none)]⟩ ∧
      derive_category cfg (move_to_category cfg path0 none) = none ∧
      fileSeg (move_to_category cfg path0 none) = fileSeg path0) ∧
    (∀ cfg args path0 item0 c,
      NoContentChange args item0 →
      args.category = some c →
      (trim c).isEmpty = false →
      args.remove_category = false →
      derive_category cfg path0 ≠ some (normalize_identifier c) →
      updateExec cfg args path0 item0 =
        .ok ⟨item0, move_to_category cfg path0 (some (normalize_identifier c)),
          [.save path0 (serializeItem item0),
           .move path0 (move_to_category cfg path0 (some (normalize_identifier c)))]⟩ ∧
      derive_category cfg (move_to_category cfg path0 (some (normalize_identifier c)))
          = some (normalize_identifier c) ∧
      fileSeg (move_to_category cfg path0 (some (normalize_identifier c)))
          = fileSeg path0) := by
  constructor
  · intro cfg args path0 item0 hnc hc hrc hsome
    obtain ⟨ht, httrim, hl, hr⟩ := hnc
    obtain ⟨v1, v2, v3, v4⟩ := update_validations_pass args item0 httrim
      (by simp [hl]) (fun l hm => (hr l hm).1) (by simp [hc])
    refine ⟨?_, derive_category_move_none cfg path0, ?_⟩
    · unfold updateExec
      rw [v1, v2, v3, v4]
      simp only [Bool.false_eq_true, if_false, ite_false]
      rw [applyUpdates_of_no_change args item0 ⟨ht, httrim, hl, hr⟩]
      simp [hc, hrc, hsome]
    · simp [move_to_category, resolve_target_dir, fileSeg_append]
  · intro cfg args path0 item0 c hnc hc hctrim hrc hne
    obtain ⟨ht, httrim, hl, hr⟩ := hnc
    obtain ⟨v1, v2, v3, v4⟩ := update_validations_pass args item0 httrim
      (by simp [hl]) (fun l hm => (hr l hm).1)
      (by intro c' hc'; rw [hc] at hc'; cases hc'; exact hctrim)
    refine ⟨?_, derive_category_move_some cfg path0 _, ?_⟩
    · unfold updateExec
      rw [v1, v2, v3, v4]
      simp only [Bool.false_eq_true, if_false, ite_false]
      rw [applyUpdates_of_no_change args item0 ⟨ht, httrim, hl, hr⟩]
      simp [hc, hrc, hne]
    · simp only [move_to_category, resolve_target_dir]
      exact fileSeg_append _ _

/-- Witness for C1 (amended) at the concrete category-removal invocation. -/
theorem c1_category_move_amended_witness :
    updateExec exCfg c1args exPath exItem =
      .ok ⟨exItem, move_to_category exCfg exPath none,
        [.save exPath (serializeItem exItem),
         .move exPath (move_to_category exCfg exPath none)]⟩ ∧
    derive_category exCfg (move_to_category exCfg exPath none) = none ∧
    fileSeg (move_to_category exCfg exPath none) = fileSeg exPath :=
  c1_category_move_amended.1 exCfg c1args exPath exItem
    ⟨Or.inl rfl, by simp [c1args], by simp [c1args], by simp [c1args]⟩ rfl rfl (by decide)

lemma isPrefixOf_filename (i t : Str) : i.isPrefixOf (filename i t) = true := by
  unfold filename
  by_cases h : slug t = []
  · simp only [h, if_true, reduceIte]
    exact isPrefixOf_self_append i _
  · simp only [h, if_neg, ite_false, reduceIte, List.append_assoc]
    exact isPrefixOf_self_append i _

/-- C4: `filename(id, title)` is deterministic — the same pair always yields
the same filename — the id is a prefix of every derived filename (the id
portion is unchanged under title changes), the filename depends on the title
only through the slug, and a title-only update leaves the directory unchanged:
it saves and then renames within `dropLast path0`, renaming only when the
derived filename actually differs. -/
theorem c4_filename_deterministic_and_rename (cfg : Config) (path0 : Path)
    (item0 : Item) (t : Str)
    (htr : (trim t).isEmpty = false)
    (hne : t ≠ item0.frontmatter.title) :
    (∀ i₁ i₂ t₁ t₂ : Str, i₁ = i₂ → t₁ = t₂ → filename i₁ t₁ = filename i₂ t₂) ∧
    (∀ i s : Str, i.isPrefixOf (filename i s) = true) ∧
    (∀ i t₁ t₂ : Str, slug t₁ = slug t₂ → filename i t₁ = filename i t₂) ∧
    (rename_item path0 ((item0.set_title t).filename)).dropLast = path0.dropLast ∧
    updateExec cfg ⟨some t, [], [], none, false⟩ path0 item0 =
      (if item0.filename = (item0.set_title t).filename then
        .ok ⟨item0.set_title t, path0,
          [.save path0 (serializeItem (item0.set_title t))]⟩
      else
        .ok ⟨item0.set_title t, rename_item path0 ((item0.set_title t).filename),
          [.save path0 (serializeItem (item0.set_title t)),
           .rename path0 (rename_item path0 ((item0.set_title t).filename))]⟩) := by
  refine ⟨fun i₁ i₂ t₁ t₂ hi ht => by rw [hi, ht], isPrefixOf_filename,
    fun i t₁ t₂ hs => by unfold filename; rw [hs], ?_, ?_⟩
  · rw [rename_item, List.dropLast_concat]
  · unfold updateExec
    simp only [Option.any, htr, List.any_nil, Bool.false_eq_true, if_false, ite_false,
      reduceIte]
    unfold applyUpdates
    simp only [ne_eq, hne, not_false_eq_true, if_true, List.foldl_nil, ite_true, reduceIte]
    by_cases hfn : item0.filename = (item0.set_title t).filename
    · simp [hfn]
    · simp [hfn]

/-- Witness for C4 at a concrete title change. -/
theorem c4_filename_deterministic_and_rename_witness :
    (∀ i₁ i₂ t₁ t₂ : Str, i₁ = i₂ → t₁ = t₂ → filename i₁ t₁ = filename i₂ t₂) ∧
    (∀ i s : Str, i.isPrefixOf (filename i s) = true) ∧
    (∀ i t₁ t₂ : Str, slug t₁ = slug t₂ → filename i t₁ = filename i t₂) ∧
    (rename_item exPath ((exItem.set_title "Fixed".data).filename)).dropLast
        = exPath.dropLast ∧
    updateExec exCfg ⟨some "Fixed".data, [], [], none, false⟩ exPath exItem =
      (if exItem.filename = (exItem.set_title "Fixed".data).filename then
        .ok ⟨exItem.set_title "Fixed".data, exPath,
          [.save exPath (serializeItem (exItem.set_title "Fixed".data))]⟩
      else
        .ok ⟨exItem.set_title "Fixed".data,
          rename_item exPath ((exItem.set_title "Fixed".data).filename),
          [.save exPath (serializeItem (exItem.set_title "Fixed".data)),
           .rename exPath
             (rename_item exPath ((exItem.set_title "Fixed".data).filename))]⟩) :=
  c4_filename_deterministic_and_rename exCfg exPath exItem "Fixed".data
    (by decide) (by decide)

/-- C8: creating or updating an item fails with the corresponding validation
error whenever a supplied title, label, or category is empty after trimming;
an error result carries no effect trace, so the failure happens before any
filesystem change.  With a non-empty title, labels, and category the
validation does not trigger and both commands succeed. -/
theorem c8_empty_after_trim_validation :
    (∀ (cfg : Config) (args : NewArgs) (a i cr : Str),
      (trim args.title).isEmpty = true →
      newExec cfg args a i cr = .error msgTitleEmpty) ∧
    (∀ (cfg : Config) (args : NewArgs) (a i cr : Str),
      (trim args.title).isEmpty = false →
      (args.labels.any fun l => (trim l).isEmpty) = true →
      newExec cfg args a i cr = .error msgLabelEmpty) ∧
    (∀ (cfg : Config) (args : NewArgs) (a i cr : Str),
      (trim args.title).isEmpty = false →
      (args.labels.any fun l => (trim l).isEmpty) = false →
      (args.category.any fun c => (trim c).isEmpty) = true →
      newExec cfg args a i cr = .error msgCategoryEmpty) ∧
    (∀ (cfg : Config) (args : NewArgs) (a i cr : Str),
      (trim args.title).isEmpty = false →
      (args.labels.any fun l => (trim l).isEmpty) = false →
      (args.category.any fun c => (trim c).isEmpty) = false →
      ∃ out, newExec cfg args a i cr = .ok out) ∧
    (∀ (cfg : Config) (args : UpdateArgs) (p : Path) (it : Item) (t : Str),
      args.title = some t → (trim t).isEmpty = true →
      updateExec cfg args p it = .error msgTitleEmpty) ∧
    (∀ (cfg : Config) (args : UpdateArgs) (p : Path) (it : Item),
      (args.title.any fun t => (trim t).isEmpty) = false →
      ((args.labels.any fun l => (trim l).isEmpty) = true ∨
        ((args.labels.any fun l => (trim l).isEmpty) = false ∧
          (args.remove_labels.any fun l => (trim l).isEmpty) = true)) →
      updateExec cfg args p it = .error msgLabelEmpty) ∧
    (∀ (cfg : Config) (args : UpdateArgs) (p : Path) (it : Item) (c : Str),
      (args.title.any fun t => (trim t).isEmpty) = false →
      (args.labels.any fun l => (trim l).isEmpty) = false →
      (args.remove_labels.any fun l => (trim l).isEmpty) = false →
      args.category = some c → (trim c).isEmpty = true →
      updateExec cfg args p it = .error msgCategoryEmpty) ∧
    (∀ (cfg : Config) (args : UpdateArgs) (p : Path) (it : Item),
      (args.title.any fun t => (trim t).isEmpty) = false →
      (args.labels.any fun l => (trim l).isEmpty) = false →
      (args.remove_labels.any fun l => (trim l).isEmpty) = false →
      (args.category.any fun c => (trim c).isEmpty) = false →
      ∃ out, updateExec cfg args p it = .ok out) := by
  refine ⟨?_, ?_, ?_, ?_, ?_, ?_, ?_, ?_⟩
  · intro cfg args a i cr h
    unfold newExec
    simp [h]
  · intro cfg args a i cr h1 h2
    unfold newExec
    simp [h1, h2]
  · intro cfg args a i cr h1 h2 h3
    unfold newExec
    simp [h1, h2, h3]
  · intro cfg args a i cr h1 h2 h3
    unfold newExec
    simp only [h1, h2, h3, Bool.false_eq_true, if_false, ite_false, reduceIte]
    exact ⟨_, rfl⟩
  · intro cfg args p it t ht h
    unfold updateExec
    simp [Option.any, ht, h]
  · intro cfg args p it h1 h2
    unfold updateExec
    rcases h2 with h2 | ⟨h2, h3⟩
    · simp [h1, h2]
    · simp [h1, h2, h3]
  · intro cfg args p it c h1 h2 h3 hc h4
    unfold updateExec
    simp only [h1, h2, h3, Bool.false_eq_true, if_false, ite_false, reduceIte]
    simp [hc, Option.any, h4]
  · intro cfg args p it h1 h2 h3 h4
    unfold updateExec
    simp only [h1, h2, h3, h4, Bool.false_eq_true, if_false, ite_false, reduceIte]
    repeat' split
    all_goals exact ⟨_, rfl⟩

/-- Witness for C8: a whitespace-only title is rejected by the new command. -/
theorem c8_empty_after_trim_validation_witness :
    newExec exCfg ⟨" ".data, [], none⟩ "Alice".data "260103-CCC".data
      "2026-01-03T00:00:00Z".data = .error msgTitleEmpty :=
  c8_empty_after_trim_validation.1 exCfg ⟨" ".data, [], none⟩ "Alice".data
    "260103-CCC".data "2026-01-03T00:00:00Z".data (by decide)

/-- C7: an attach-add invocation on a Closed item fails with the closed-item
error before any attachment source is processed (an error result carries no
effect trace, so the item's file and the filesystem are unchanged); on an
Open item the check does not trigger and processing proceeds. -/
theorem c7_attach_to_closed_rejected :
    (∀ (fs : List Str) (args : AttachAddArgs) (path : Path) (it : Item),
      args.sources ≠ [] →
      it.frontmatter.status = .Closed →
      execute_add fs args path it = .error msgClosedItem) ∧
    (∀ (fs : List Str) (args : AttachAddArgs) (path : Path) (it : Item),
      it.frontmatter.status = .Open →
      execute_add fs args path it ≠ .error msgClosedItem) ∧
    (∀ (fs : List Str) (args : AttachAddArgs) (path : Path) (it : Item),
      args.sources ≠ [] →
      it.frontmatter.status = .Open →
      ∃ acc, execute_add fs args path it = .ok acc) := by
  refine ⟨?_, ?_, ?_⟩
  · intro fs args path it hne hst
    cases hs : args.sources with
    | nil => exact absurd hs hne
    | cons a l => simp [execute_add, hs, hst]
  · intro fs args path it hst
    cases hs : args.sources with
    | nil =>
      simp only [execute_add, hs, List.isEmpty_nil, if_true, reduceIte]
      intro h
      have : msgNoSources = msgClosedItem := Except.error.inj h
      exact absurd this (by decide)
    | cons a l => simp [execute_add, hs, hst, process_and_save_attachments]
  · intro fs args path it hne hst
    cases hs : args.sources with
    | nil => exact absurd hs hne
    | cons a l =>
      simp only [execute_add, hs, List.isEmpty_cons, if_false, hst, reduceIte,
        process_and_save_attachments]
      exact ⟨_, rfl⟩

/-- Witness for C7 at a concrete closed item. -/
theorem c7_attach_to_closed_rejected_witness :
    execute_add [] ⟨["https://example.com/x".data]⟩ p3
      ⟨⟨item3.frontmatter.id, item3.frontmatter.title, item3.frontmatter.author,
        item3.frontmatter.created_at, .Closed, [], []⟩, []⟩ = .error msgClosedItem :=
  c7_attach_to_closed_rejected.1 [] ⟨["https://example.com/x".data]⟩ p3
    ⟨⟨item3.frontmatter.id, item3.frontmatter.title, item3.frontmatter.author,
      item3.frontmatter.created_at, .Closed, [], []⟩, []⟩ (by decide) rfl

lemma processSources_skip (fs : List Str) (s : Str)
    (hurl : is_url s = false) (hmem : s ∉ fs) :
    ∀ (pre : List Str) (post : List Str) (it : Item),
      (processSources fs (pre ++ s :: post) it).count
          = (processSources fs (pre ++ post) it).count ∧
      (processSources fs (pre ++ s :: post) it).item
          = (processSources fs (pre ++ post) it).item ∧
      (processSources fs (pre ++ s :: post) it).effects
          = (processSources fs (pre ++ post) it).effects ∧
      msgFileNotFound s ∈ (processSources fs (pre ++ s :: post) it).warnings := by
  intro pre
  induction pre with
  | nil =>
    intro post it
    simp [processSources, process_attachment, hurl, hmem]
  | cons p ps ih =>
    intro post it
    obtain ⟨i1, i2, i3, i4⟩ := ih post (process_attachment fs p it).2.1
    simp only [List.cons_append, processSources]
    split <;> simp [i1, i2, i3, i4]

/-- C5: an attach-add source that is a local path to a nonexistent file is
reported as a `FileNotFound` warning and contributes nothing: the added
count, the resulting item, and the effect trace are those of the invocation
without that source (so nothing is appended for it and the remaining sources
are still processed), and the overall command still succeeds. -/
theorem c5_missing_file_nonfatal (fs : List Str) (pre post : List Str) (s : Str)
    (path : Path) (it : Item)
    (hurl : is_url s = false) (hmem : s ∉ fs)
    (hst : it.frontmatter.status = .Open) :
    (processSources fs (pre ++ s :: post) it).count
        = (processSources fs (pre ++ post) it).count ∧
    (processSources fs (pre ++ s :: post) it).item
        = (processSources fs (pre ++ post) it).item ∧
    (processSources fs (pre ++ s :: post) it).effects
        = (processSources fs (pre ++ post) it).effects ∧
    msgFileNotFound s ∈ (processSources fs (pre ++ s :: post) it).warnings ∧
    ∃ acc, execute_add fs ⟨pre ++ s :: post⟩ path it = .ok acc := by
  obtain ⟨h1, h2, h3, h4⟩ := processSources_skip fs s hurl hmem pre post it
  refine ⟨h1, h2, h3, h4, ?_⟩
  have hne : (pre ++ s :: post).isEmpty = false := by
    cases pre <;> rfl
  simp only [execute_add, hne, Bool.false_eq_true, if_false, hst, ite_false, reduceIte,
    process_and_save_attachments]
  exact ⟨_, rfl⟩

/-- Witness for C5: a single missing local file yields a warning, adds
nothing, and the command succeeds. -/
theorem c5_missing_file_nonfatal_witness :
    (processSources [] (["missing.txt".data]) exItem).count
        = (processSources [] [] exItem).count ∧
    (processSources [] (["missing.txt".data]) exItem).item
        = (processSources [] [] exItem).item ∧
    (processSources [] (["missing.txt".data]) exItem).effects
        = (processSources [] [] exItem).effects ∧
    msgFileNotFound "missing.txt".data
        ∈ (processSources [] (["missing.txt".data]) exItem).warnings ∧
    ∃ acc, execute_add [] ⟨["missing.txt".data]⟩ exPath exItem = .ok acc :=
  c5_missing_file_nonfatal [] [] [] "missing.txt".data exPath exItem
    (by decide) (by decide) rfl

lemma mem_dedupConsec : ∀ (l : List Nat) (a : Nat), a ∈ dedupConsec l ↔ a ∈ l := by
  intro l
  induction l with
  | nil => intro a; simp [dedupConsec]
  | cons x rest ih =>
    intro a
    simp only [dedupConsec]
    cases hd : dedupConsec rest with
    | nil =>
      have hrest : ∀ b : Nat, ¬b ∈ rest := by
        intro b hb
        have := (ih b).mpr hb
        rw [hd] at this
        exact absurd this (List.not_mem_nil b)
      simp [List.mem_cons, hrest]
    | cons b t =>
      have hb : b ∈ rest := (ih b).mp (by rw [hd]; exact List.mem_cons_self b t)
      by_cases hab : x = b
      · simp only [hab, if_true, reduceIte]
        rw [← hd, ih a, List.mem_cons]
        constructor
        · exact Or.inr
        · rintro (rfl | h)
          · exact hab ▸ hb
          · exact h
      · simp only [hab, if_false, ite_false, reduceIte]
        rw [List.mem_cons, ← hd, ih a, ← List.mem_cons]

lemma dedupConsec_sorted : ∀ l : List Nat,
    l.Sorted (· ≥ ·) → (dedupConsec l).Sorted (· > ·) := by
  intro l
  induction l with
  | nil => intro _; simp [dedupConsec]
  | cons x rest ih =>
    intro hs
    obtain ⟨hx, hrest⟩ := List.sorted_cons.mp hs
    simp only [dedupConsec]
    cases hd : dedupConsec rest with
    | nil => simp
    | cons b t =>
      have hsorted : (b :: t).Sorted (· > ·) := hd ▸ ih hrest
      have hbr : b ∈ rest := (mem_dedupConsec rest b).mp
        (by rw [hd]; exact List.mem_cons_self b t)
      by_cases hab : x = b
      · simpa [hab] using hsorted
      · simp only [hab, if_false, ite_false, reduceIte]
        rw [List.sorted_cons]
        refine ⟨?_, hsorted⟩
        intro y hy
        have hxb : x > b := lt_of_le_of_ne (hx b hbr) (by exact fun hbe => hab hbe.symm)
        rcases List.mem_cons.mp hy with rfl | hyt
        · exact hxb
        · exact lt_trans (List.rel_of_sorted_cons hsorted y hyt) hxb

lemma processedIndices_sorted (ind : List Nat) :
    (processedIndices ind).Sorted (· > ·) := by
  apply dedupConsec_sorted
  rw [List.Sorted, List.pairwise_reverse]
  exact (List.sorted_insertionSort (· ≤ ·) ind).imp fun h => h

lemma mem_processedIndices (ind : List Nat) (a : Nat) :
    a ∈ processedIndices ind ↔ a ∈ ind := by
  unfold processedIndices
  rw [mem_dedupConsec, List.mem_reverse]
  exact (List.perm_insertionSort _ ind).mem_iff

lemma processedIndices_length (ind : List Nat) :
    (processedIndices ind).length = ind.toFinset.card := by
  have hnd : (processedIndices ind).Nodup := (processedIndices_sorted ind).nodup
  have hfs : (processedIndices ind).toFinset = ind.toFinset := by
    ext a
    simp [List.mem_toFinset, mem_processedIndices]
  rw [← List.toFinset_card_of_nodup hnd, hfs]

lemma length_of_removeAt : ∀ (l : List Str) (i : Nat) (p : Str × List Str),
    removeAt l i = some p → l.length = p.2.length + 1 := by
  intro l
  induction l with
  | nil => intro i p h; simp [removeAt] at h
  | cons x xs ih =>
    intro i p h
    cases i with
    | zero =>
      simp only [removeAt, Option.some_inj] at h
      rw [← h]
      simp
    | succ j =>
      simp only [removeAt, Option.map_eq_some'] at h
      obtain ⟨q, hq, hp⟩ := h
      rw [← hp]
      simp [ih j q hq]

lemma removeAt_lt_isSome : ∀ (l : List Str) (i : Nat), i < l.length →
    ∃ p, removeAt l i = some p := by
  intro l
  induction l with
  | nil => intro i h; simp at h
  | cons x xs ih =>
    intro i h
    cases i with
    | zero => exact ⟨(x, xs), rfl⟩
    | succ j =>
      obtain ⟨q, hq⟩ := ih j (by simpa using h)
      exact ⟨(q.1, x :: q.2), by simp [removeAt, hq]⟩

lemma removeLoop_spec (delOk : Str → Bool) :
    ∀ (ind : List Nat) (it : Item),
      ind.Sorted (· > ·) →
      (∀ i ∈ ind, 1 ≤ i ∧ i ≤ it.frontmatter.attachments.length) →
      (removeLoop delOk ind it).item.frontmatter.attachments.length
          = it.frontmatter.attachments.length - ind.length ∧
      (removeLoop delOk ind it).removedCount = ind.length := by
  intro ind
  induction ind with
  | nil =>
    intro it _ _
    exact ⟨by simp [removeLoop], by simp [removeLoop]⟩
  | cons idx rest ih =>
    intro it hs hb
    obtain ⟨h1, h2⟩ := hb idx (List.mem_cons_self idx rest)
    have hlt : idx - 1 < it.frontmatter.attachments.length := by omega
    have hrs : rest.Sorted (· > ·) := (List.sorted_cons.mp hs).2
    have hrel : ∀ i ∈ rest, i < idx := (List.sorted_cons.mp hs).1
    simp only [removeLoop]
    split
    · rename_i p heq
      have hlen := length_of_removeAt _ _ _ heq
      have hb' : ∀ i ∈ rest,
          1 ≤ i ∧ i ≤ (it.set_attachments p.2).frontmatter.attachments.length := by
        intro i hi
        obtain ⟨g1, g2⟩ := hb i (List.mem_cons_of_mem _ hi)
        have g3 := hrel i hi
        simp only [Item.set_attachments]
        omega
      obtain ⟨e1, e2⟩ := ih (it.set_attachments p.2) hrs hb'
      have hset : (it.set_attachments p.2).frontmatter.attachments.length = p.2.length := rfl
      rw [hset] at e1
      dsimp only
      constructor
      · simp only [List.length_cons]
        omega
      · simp only [List.length_cons, e2]
    · rename_i heq
      obtain ⟨p, hp⟩ := removeAt_lt_isSome _ _ hlt
      rw [heq] at hp
      exact absurd hp (by simp)

/-- C3: attach-remove validates every 1-based index against the current
bounds before removing anything — an index of 0 or above the attachment
count makes the whole command fail with the invalid-index error (an error
result carries no effect trace, so nothing is removed on disk or in
metadata); valid index lists are processed internally in strictly decreasing
order; on an item with 3 attachments, removing `[1, 5]` removes nothing and
removing `[3, 1]` removes exactly positions 3 and 1, leaving 1 attachment. -/
theorem c3_remove_all_or_nothing_validation :
    (∀ (delOk : Str → Bool) (args : AttachRemoveArgs) (path : Path) (it : Item),
      args.indices ≠ [] →
      it.frontmatter.attachments.length ≠ 0 →
      (∃ i ∈ args.indices, i = 0 ∨ it.frontmatter.attachments.length < i) →
      execute_remove delOk args path it = .error msgInvalidIndex) ∧
    (∀ ind : List Nat, (processedIndices ind).Sorted (· > ·)) ∧
    execute_remove delOkAll ⟨[1, 5]⟩ p3 item3 = .error msgInvalidIndex ∧
    execute_remove delOkAll ⟨[3, 1]⟩ p3 item3 =
      .ok ⟨item3.set_attachments ["b.txt".data], 2, [],
        [.deleteAtt "c.txt".data, .deleteAtt "a.txt".data,
         .save p3 (serializeItem (item3.set_attachments ["b.txt".data]))]⟩ := by
  refine ⟨?_, processedIndices_sorted, ?_, ?_⟩
  · intro delOk args path it hne hn hbad
    have hempty : args.indices.isEmpty = false := by
      cases h : args.indices with
      | nil => exact absurd h hne
      | cons a l => rfl
    have hany : (args.indices.any fun i =>
        i == 0 || decide (it.frontmatter.attachments.length < i)) = true := by
      obtain ⟨i, hi, hcase⟩ := hbad
      rw [List.any_eq_true]
      refine ⟨i, hi, ?_⟩
      rcases hcase with h | h <;> simp [h]
    simp [execute_remove, hempty, hn, hany]
  · rfl
  · rfl

/-- Witness for C3 at the concrete out-of-bounds request. -/
theorem c3_remove_all_or_nothing_validation_witness :
    execute_remove delOkAll ⟨[1, 5]⟩ p3 item3 = .error msgInvalidIndex :=
  c3_remove_all_or_nothing_validation.1 delOkAll ⟨[1, 5]⟩ p3 item3
    (by decide) (by decide) ⟨5, by decide, Or.inr (by decide)⟩

/-- C9: duplicate indices in an attach-remove request are collapsed after the
bounds validation: each requested position is removed at most once, so a
valid request removes exactly the distinct requested indices and the final
attachment count is the original count minus the number of distinct indices. -/
theorem c9_duplicate_indices_collapsed (delOk : Str → Bool)
    (args : AttachRemoveArgs) (path : Path) (it : Item)
    (hne : args.indices ≠ [])
    (hb : ∀ i ∈ args.indices, 1 ≤ i ∧ i ≤ it.frontmatter.attachments.length) :
    ∃ acc, execute_remove delOk args path it = .ok acc ∧
      acc.item.frontmatter.attachments.length
          = it.frontmatter.attachments.length - args.indices.toFinset.card ∧
      acc.removedCount = args.indices.toFinset.card := by
  have hempty : args.indices.isEmpty = false := by
    cases h : args.indices with
    | nil => exact absurd h hne
    | cons a l => rfl
  have hn : it.frontmatter.attachments.length ≠ 0 := by
    obtain ⟨i, hi⟩ := List.exists_mem_of_ne_nil args.indices hne
    have := hb i hi
    omega
  have hany : (args.indices.any fun i =>
      i == 0 || decide (it.frontmatter.attachments.length < i)) = false := by
    rw [List.any_eq_false]
    intro i hi
    obtain ⟨g1, g2⟩ := hb i hi
    simp
    omega
  have hbp : ∀ i ∈ processedIndices args.indices,
      1 ≤ i ∧ i ≤ it.frontmatter.attachments.length :=
    fun i hi => hb i ((mem_processedIndices args.indices i).mp hi)
  obtain ⟨e1, e2⟩ := removeLoop_spec delOk (processedIndices args.indices) it
    (processedIndices_sorted args.indices) hbp
  rw [processedIndices_length] at e1 e2
  have hexec : execute_remove delOk args path it =
      .ok ⟨(removeLoop delOk (processedIndices args.indices) it).item,
        (removeLoop delOk (processedIndices args.indices) it).removedCount,
        (removeLoop delOk (processedIndices args.indices) it).warnings,
        (removeLoop delOk (processedIndices args.indices) it).effects ++
          [.save path (serializeItem
            (removeLoop delOk (processedIndices args.indices) it).item)]⟩ := by
    simp [execute_remove, hempty, hn, hany]
  exact ⟨_, hexec, e1, e2⟩

/-- Witness for C9: removing `[2, 2, 2]` from an item with 3 attachments
leaves 2 and reports a single removal. -/
theorem c9_duplicate_indices_collapsed_witness :
    ∃ acc, execute_remove delOkAll ⟨[2, 2, 2]⟩ p3 item3 = .ok acc ∧
      acc.item.frontmatter.attachments.length
          = item3.frontmatter.attachments.length - ([2, 2, 2] : List Nat).toFinset.card ∧
      acc.removedCount = ([2, 2, 2] : List Nat).toFinset.card :=
  c9_duplicate_indices_collapsed delOkAll ⟨[2, 2, 2]⟩ p3 item3 (by decide) (by decide)

/-- C6: during attach-remove of a validated index, a URL entry (by URL-syntax
detection) only updates the metadata list — no deletion effect is recorded —
while a file entry has its filesystem deletion attempted (`deleteAtt` appears
in the trace); when the deletion fails the metadata entry is nevertheless
removed, the failure is reported only as a warning, and the command still
succeeds and saves the item. -/
theorem c6_remove_url_vs_file (delOk : Str → Bool) (path : Path) (it : Item)
    (i : Nat) (a : Str) (atts' : List Str)
    (h1 : 1 ≤ i) (h2 : i ≤ it.frontmatter.attachments.length)
    (hra : removeAt it.frontmatter.attachments (i - 1) = some (a, atts')) :
    (is_url a = true →
      execute_remove delOk ⟨[i]⟩ path it =
        .ok ⟨it.set_attachments atts', 1, [],
          [.save path (serializeItem (it.set_attachments atts'))]⟩) ∧
    (is_url a = false →
      execute_remove delOk ⟨[i]⟩ path it =
        .ok ⟨it.set_attachments atts', 1,
          (if delOk a then [] else [msgDeleteFailed a]),
          [.deleteAtt a, .save path (serializeItem (it.set_attachments atts'))]⟩) := by
  have hn : it.frontmatter.attachments.length ≠ 0 := by omega
  have hany : (([i] : List Nat).any fun j =>
      j == 0 || decide (it.frontmatter.attachments.length < j)) = false := by
    simp
    omega
  have hrun : execute_remove delOk ⟨[i]⟩ path it =
      .ok ⟨it.set_attachments atts', 1,
        (if is_url a || delOk a then [] else [msgDeleteFailed a]),
        (if is_url a then [] else [.deleteAtt a]) ++
          [.save path (serializeItem (it.set_attachments atts'))]⟩ := by
    have hpi : processedIndices [i] = [i] := rfl
    simp only [execute_remove, List.isEmpty_cons, Bool.false_eq_true, if_false, hn,
      ite_false, hany, reduceIte, hpi]
    simp only [removeLoop]
    split
    · rename_i p heq
      rw [hra] at heq
      injection heq with heq2
      subst heq2
      dsimp only
      simp [removeLoop]
    · rename_i heq
      rw [heq] at hra
      exact absurd hra (by simp)
  constructor
  · intro hurl
    rw [hrun]
    simp [hurl]
  · intro hurl
    rw [hrun]
    simp [hurl]

/-- Witness for C6: removing a file attachment whose disk deletion fails
still removes the metadata entry, warns, and succeeds. -/
theorem c6_remove_url_vs_file_witness :
    execute_remove delFailAll ⟨[2]⟩ p3 item3 =
      .ok ⟨item3.set_attachments ["a.txt".data, "c.txt".data], 1,
        (if delFailAll "b.txt".data then [] else [msgDeleteFailed "b.txt".data]),
        [.deleteAtt "b.txt".data,
         .save p3 (serializeItem
           (item3.set_attachments ["a.txt".data, "c.txt".data]))]⟩ :=
  (c6_remove_url_vs_file delFailAll p3 item3 2 "b.txt".data
    ["a.txt".data, "c.txt".data] (by decide) (by decide) (by decide)).2 (by decide)

end QStack
